import Mathlib

/-!
Verification of the redis-backed leaky-bucket implementation (`redis/redis.go`).

The bucket's operations are embedded shallowly: every interaction with the
redis store (GET, INCRBY, PEXPIRE, PTTL) is parameterised by the reply the
store gives, and each operation additionally returns the list of commands it
issued, so that properties about store mutation (or its absence) can be
stated.  Wall-clock time is an `Int` counting nanoseconds since the epoch,
durations are `Int` nanoseconds, matching Go's `time.Time`/`time.Duration`.
-/

namespace Redis

/-- Go's `int64(time.Millisecond)`: one millisecond expressed in nanoseconds. -/
def millisecond : Int := 1000000

/-- Go's `time.Time.Unix()` on a timestamp of `t` nanoseconds since the epoch:
whole seconds since the epoch (floor division, since Go stores a nonnegative
sub-second offset). -/
def unixSec (t : Int) : Int := Int.fdiv t 1000000000

/-- The `min` helper of the source (over `uint`, here `Nat`). -/
def minUint (a b : Nat) : Nat := if a < b then a else b

/-- `leakybucket.BucketState`: the snapshot returned by `Add`/`State`. -/
structure BucketState where
  capacity : Nat
  remaining : Nat
  reset : Int
  deriving Repr, DecidableEq

/-- The `bucket` struct (the `pool` and `context` fields are the external
store handle and cancellation token; they are not part of the embedded
state). -/
structure Bucket where
  name : String
  capacity : Nat
  remaining : Nat
  reset : Int
  rate : Int
  deriving Repr, DecidableEq

def Bucket.Capacity (b : Bucket) : Nat := b.capacity

def Bucket.Remaining (b : Bucket) : Nat := b.remaining

def Bucket.Reset (b : Bucket) : Int := b.reset

def Bucket.State (b : Bucket) : BucketState :=
  { capacity := b.Capacity, remaining := b.Remaining, reset := b.Reset }

/-- Reply of the store to `GET key` as decoded by `redis.Uint64`: the key is
absent (`redis.ErrNil`), holds the counter value, or the call fails with a
store error (identified by an arbitrary code). -/
inductive GetReply where
  | notFound
  | found (count : Nat)
  | fail (e : Nat)
  deriving Repr, DecidableEq

/-- Reply of the store to `INCRBY key amount` as decoded by `redis.Uint64`. -/
inductive IncrReply where
  | ok (total : Nat)
  | fail (e : Nat)
  deriving Repr, DecidableEq

/-- Reply of the store to `PEXPIRE key ms`. -/
inductive PexpireReply where
  | ok
  | fail (e : Nat)
  deriving Repr, DecidableEq

/-- Reply of the store to `PTTL key`: an `int64` number of milliseconds,
which redis also uses for the sentinels `-1` (no expiry) and `-2` (no such
key), or a store error. -/
inductive TtlReply where
  | ok (ttl : Int)
  | fail (e : Nat)
  deriving Repr, DecidableEq

/-- A store command issued over the connection, in issue order. -/
inductive Cmd where
  | get (key : String)
  | pttl (key : String)
  | incrBy (key : String) (amount : Nat)
  | pexpire (key : String) (ms : Int)
  deriving Repr, DecidableEq

/-- Whether a command mutates the store (`INCRBY` and `PEXPIRE` do; `GET`
and `PTTL` are read-only). -/
def Cmd.isMutating : Cmd → Bool
  | .incrBy _ _ => true
  | .pexpire _ _ => true
  | _ => false

/-- The two error kinds `Add` can return: `leakybucket.ErrorFull`, or a
store error propagated verbatim. -/
inductive BError where
  | full
  | store (e : Nat)
  deriving Repr, DecidableEq

/-- Result of `updateOldReset`: the (possibly) updated bucket, the returned
error (a store error code, if any), and the commands issued. -/
structure ResetResult where
  bucket : Bucket
  err : Option Nat
  cmds : List Cmd
  deriving Repr, DecidableEq

/-- `(*bucket).updateOldReset` (lines 40-54): if the cached reset's Unix
second is still ahead of now's Unix second, do nothing; otherwise issue
`PTTL` and, on success, set `reset := now + ttl * millisecond`. -/
def updateOldReset (b : Bucket) (now : Int) (ttlR : TtlReply) : ResetResult :=
  if unixSec b.reset > unixSec now then
    { bucket := b, err := none, cmds := [] }
  else
    match ttlR with
    | .fail e => { bucket := b, err := some e, cmds := [Cmd.pttl b.name] }
    | .ok ttl =>
        { bucket := { b with reset := now + ttl * millisecond },
          err := none, cmds := [Cmd.pttl b.name] }

/-- Result of `Add`: the returned `BucketState` snapshot, the returned
error, the bucket after the call, and the commands issued. -/
structure AddResult where
  state : BucketState
  err : Option BError
  bucket : Bucket
  cmds : List Cmd
  deriving Repr, DecidableEq

/-- Lines 72-93 of `(*bucket).Add`, after the GET reply has been folded into
`b.remaining`: admission check, INCRBY, conditional PEXPIRE, lazy reset
refresh, recompute `remaining` from the post-increment total. -/
def Bucket.addAfterRead (b : Bucket) (now : Int) (amount : Nat)
    (incrR : IncrReply) (pexR : PexpireReply) (ttlR : TtlReply) : AddResult :=
  if amount > b.remaining then
    let r := updateOldReset b now ttlR
    { state := r.bucket.State, err := some BError.full, bucket := r.bucket,
      cmds := Cmd.get b.name :: r.cmds }
  else
    let expiry := Int.tdiv b.rate millisecond
    match incrR with
    | .fail e =>
        { state := b.State, err := some (BError.store e), bucket := b,
          cmds := [Cmd.get b.name, Cmd.incrBy b.name amount] }
    | .ok count =>
        if count = amount then
          match pexR with
          | .fail e =>
              { state := b.State, err := some (BError.store e), bucket := b,
                cmds := [Cmd.get b.name, Cmd.incrBy b.name amount,
                         Cmd.pexpire b.name expiry] }
          | .ok =>
              let r := updateOldReset b now ttlR
              let b2 := { r.bucket with
                          remaining := b.capacity - minUint count b.capacity }
              { state := b2.State, err := none, bucket := b2,
                cmds := [Cmd.get b.name, Cmd.incrBy b.name amount,
                         Cmd.pexpire b.name expiry] ++ r.cmds }
        else
          let r := updateOldReset b now ttlR
          let b2 := { r.bucket with
                      remaining := b.capacity - minUint count b.capacity }
          { state := b2.State, err := none, bucket := b2,
            cmds := [Cmd.get b.name, Cmd.incrBy b.name amount] ++ r.cmds }

/-- `(*bucket).Add` (lines 57-94).  The store replies for GET, INCRBY,
PEXPIRE and PTTL are explicit parameters; replies for commands the control
flow never issues are simply unused. -/
def Bucket.Add (b : Bucket) (now : Int) (amount : Nat)
    (getR : GetReply) (incrR : IncrReply) (pexR : PexpireReply)
    (ttlR : TtlReply) : AddResult :=
  match getR with
  | .fail e =>
      { state := b.State, err := some (BError.store e), bucket := b,
        cmds := [Cmd.get b.name] }
  | .notFound =>
      Bucket.addAfterRead { b with remaining := b.capacity }
        now amount incrR pexR ttlR
  | .found count =>
      Bucket.addAfterRead
        { b with remaining := b.capacity - minUint count b.capacity }
        now amount incrR pexR ttlR

/-- Result of `Storage.Create`: the bucket (if any), the returned store
error (if any), and the commands issued. -/
structure CreateResult where
  bucket : Option Bucket
  err : Option Nat
  cmds : List Cmd
  deriving Repr, DecidableEq

/-- `(*Storage).Create` (lines 106-138): GET the counter; absent key yields
a fresh bucket with `remaining = capacity`, `reset = now + rate` and no
store mutation; present key additionally issues `PTTL` and attaches to the
existing state; any other store failure is returned. -/
def Create (name : String) (capacity : Nat) (rate : Int) (now : Int)
    (getR : GetReply) (ttlR : TtlReply) : CreateResult :=
  match getR with
  | .fail e => { bucket := none, err := some e, cmds := [Cmd.get name] }
  | .notFound =>
      { bucket := some { name := name, capacity := capacity,
                         remaining := capacity, reset := now + rate,
                         rate := rate },
        err := none, cmds := [Cmd.get name] }
  | .found count =>
      match ttlR with
      | .fail e =>
          { bucket := none, err := some e,
            cmds := [Cmd.get name, Cmd.pttl name] }
      | .ok ttl =>
          { bucket := some { name := name, capacity := capacity,
                             remaining := capacity - minUint capacity count,
                             reset := now + ttl * millisecond, rate := rate },
            err := none, cmds := [Cmd.get name, Cmd.pttl name] }

/-! ### Honest store semantics

For claims about sequences of calls against a store that answers honestly
(single client, no faults, key not expiring during the run), the store is
just the optional counter value of the bucket's key; replies are derived
from it and the issued commands are replayed onto it. -/

/-- Effect of one issued command on the key's counter.  `INCRBY` on an
absent key creates it at 0 first (redis semantics); reads and `PEXPIRE`
leave the counter alone. -/
def applyCmd (counter : Option Nat) : Cmd → Option Nat
  | .incrBy _ a => some (counter.getD 0 + a)
  | _ => counter

/-- Replay a command trace onto the counter. -/
def applyCmds (counter : Option Nat) (cs : List Cmd) : Option Nat :=
  cs.foldl applyCmd counter

/-- The honest `GET` reply for a counter. -/
def getReplyOf (counter : Option Nat) : GetReply :=
  match counter with
  | none => GetReply.notFound
  | some v => GetReply.found v

/-- One `Add` against an honestly-answering store: `GET` reports the
counter, `INCRBY` reports the incremented total, `PEXPIRE` succeeds, and
the commands the call issued are replayed onto the counter. -/
def honestAdd (b : Bucket) (counter : Option Nat) (now : Int)
    (ttlR : TtlReply) (amount : Nat) : AddResult × Option Nat :=
  let r := b.Add now amount (getReplyOf counter)
    (IncrReply.ok (counter.getD 0 + amount)) PexpireReply.ok ttlR
  (r, applyCmds counter r.cmds)

/-- Final state of a sequence of honest `Add` calls. -/
structure RunResult where
  bucket : Bucket
  counter : Option Nat
  errs : List (Option BError)
  deriving Repr, DecidableEq

/-- Run a list of `Add` amounts against the honest store, collecting each
call's returned error. -/
def runAdds (b : Bucket) (counter : Option Nat) (now : Int)
    (ttlR : TtlReply) : List Nat → RunResult
  | [] => { bucket := b, counter := counter, errs := [] }
  | a :: rest =>
      let p := honestAdd b counter now ttlR a
      let r := runAdds p.1.bucket p.2 now ttlR rest
      { bucket := r.bucket, counter := r.counter, errs := p.1.err :: r.errs }

/-! ### Basic lemmas about `updateOldReset` -/

lemma updateOldReset_capacity (b : Bucket) (now : Int) (t : TtlReply) :
    (updateOldReset b now t).bucket.capacity = b.capacity := by
  unfold updateOldReset
  split
  · rfl
  · cases t <;> rfl

lemma updateOldReset_remaining (b : Bucket) (now : Int) (t : TtlReply) :
    (updateOldReset b now t).bucket.remaining = b.remaining := by
  unfold updateOldReset
  split
  · rfl
  · cases t <;> rfl

lemma updateOldReset_name (b : Bucket) (now : Int) (t : TtlReply) :
    (updateOldReset b now t).bucket.name = b.name := by
  unfold updateOldReset
  split
  · rfl
  · cases t <;> rfl

lemma updateOldReset_rate (b : Bucket) (now : Int) (t : TtlReply) :
    (updateOldReset b now t).bucket.rate = b.rate := by
  unfold updateOldReset
  split
  · rfl
  · cases t <;> rfl

lemma updateOldReset_fail (b : Bucket) (now : Int) (e : Nat) :
    (updateOldReset b now (TtlReply.fail e)).bucket = b := by
  unfold updateOldReset
  split <;> rfl

lemma updateOldReset_cmds (b : Bucket) (now : Int) (t : TtlReply) :
    (updateOldReset b now t).cmds = []
      ∨ (updateOldReset b now t).cmds = [Cmd.pttl b.name] := by
  unfold updateOldReset
  split
  · exact Or.inl rfl
  · cases t <;> exact Or.inr rfl

lemma applyCmds_updateOldReset (c : Option Nat) (b : Bucket) (now : Int)
    (t : TtlReply) : applyCmds c (updateOldReset b now t).cmds = c := by
  rcases updateOldReset_cmds b now t with h | h <;> rw [h] <;> rfl

lemma minUint_of_le {a b : Nat} (h : a ≤ b) : minUint a b = a := by
  unfold minUint
  split <;> omega

lemma minUint_le_right (a b : Nat) : minUint a b ≤ b := by
  unfold minUint
  split <;> omega

lemma applyCmds_append (c : Option Nat) (l1 l2 : List Cmd) :
    applyCmds c (l1 ++ l2) = applyCmds (applyCmds c l1) l2 :=
  List.foldl_append _ _ _ _

/-! ### Component lemmas for the success path of `addAfterRead` -/

lemma addAfterRead_ok_err (b : Bucket) (now : Int) (a count : Nat)
    (ttlR : TtlReply) (h : a ≤ b.remaining) :
    (b.addAfterRead now a (IncrReply.ok count) PexpireReply.ok ttlR).err
      = none := by
  unfold Bucket.addAfterRead
  rw [if_neg (by omega)]
  by_cases hc : count = a
  · simp [hc]
  · simp [hc]

lemma addAfterRead_ok_remaining (b : Bucket) (now : Int) (a count : Nat)
    (ttlR : TtlReply) (h : a ≤ b.remaining) :
    (b.addAfterRead now a (IncrReply.ok count) PexpireReply.ok ttlR).bucket.remaining
      = b.capacity - minUint count b.capacity := by
  unfold Bucket.addAfterRead
  rw [if_neg (by omega)]
  by_cases hc : count = a
  · simp [hc]
  · simp [hc]

lemma addAfterRead_ok_capacity (b : Bucket) (now : Int) (a count : Nat)
    (ttlR : TtlReply) (h : a ≤ b.remaining) :
    (b.addAfterRead now a (IncrReply.ok count) PexpireReply.ok ttlR).bucket.capacity
      = b.capacity := by
  unfold Bucket.addAfterRead
  rw [if_neg (by omega)]
  by_cases hc : count = a
  · simp [hc, updateOldReset_capacity]
  · simp [hc, updateOldReset_capacity]

lemma addAfterRead_ok_counter (b : Bucket) (now : Int) (a count : Nat)
    (ttlR : TtlReply) (c : Option Nat) (h : a ≤ b.remaining) :
    applyCmds c
        (b.addAfterRead now a (IncrReply.ok count) PexpireReply.ok ttlR).cmds
      = some (c.getD 0 + a) := by
  unfold Bucket.addAfterRead
  rw [if_neg (by omega)]
  by_cases hc : count = a
  · simp only [hc, eq_self_iff_true, if_true]
    exact (applyCmds_append _ _ _).trans (applyCmds_updateOldReset _ _ _ _)
  · simp only [if_neg hc]
    exact (applyCmds_append _ _ _).trans (applyCmds_updateOldReset _ _ _ _)

/-! ### The honest-store step lemma -/

lemma honestAdd_spec (b : Bucket) (counter : Option Nat) (now : Int)
    (ttlR : TtlReply) (a : Nat)
    (hs : counter.getD 0 + a ≤ b.capacity) :
    (honestAdd b counter now ttlR a).1.err = none ∧
    (honestAdd b counter now ttlR a).1.bucket.capacity = b.capacity ∧
    (honestAdd b counter now ttlR a).1.bucket.remaining
        = b.capacity - (counter.getD 0 + a) ∧
    (honestAdd b counter now ttlR a).2 = some (counter.getD 0 + a) := by
  cases counter with
  | none =>
      have hle : a ≤ ({ b with remaining := b.capacity } : Bucket).remaining := by
        simp at hs ⊢; omega
      refine ⟨addAfterRead_ok_err _ now a _ ttlR hle,
              addAfterRead_ok_capacity _ now a _ ttlR hle,
              ?_, ?_⟩
      · rw [show (honestAdd b none now ttlR a).1.bucket.remaining
              = (Bucket.addAfterRead { b with remaining := b.capacity } now a
                  (IncrReply.ok (0 + a)) PexpireReply.ok ttlR).bucket.remaining
            from rfl]
        rw [addAfterRead_ok_remaining _ now a _ ttlR hle]
        have ha : a ≤ b.capacity := by simpa using hs
        simp [minUint_of_le ha]
      · exact addAfterRead_ok_counter _ now a _ ttlR none hle
  | some s =>
      have hs2 : s + a ≤ b.capacity := by simpa using hs
      have hle : a ≤ ({ b with
          remaining := b.capacity - minUint s b.capacity } : Bucket).remaining := by
        simp [minUint_of_le (show s ≤ b.capacity by omega)]
        omega
      refine ⟨addAfterRead_ok_err _ now a _ ttlR hle,
              addAfterRead_ok_capacity _ now a _ ttlR hle,
              ?_, ?_⟩
      · rw [show (honestAdd b (some s) now ttlR a).1.bucket.remaining
              = (Bucket.addAfterRead
                  { b with remaining := b.capacity - minUint s b.capacity } now a
                  (IncrReply.ok (s + a)) PexpireReply.ok ttlR).bucket.remaining
            from rfl]
        rw [addAfterRead_ok_remaining _ now a _ ttlR hle]
        simp [minUint_of_le hs2]
      · exact addAfterRead_ok_counter _ now a _ ttlR (some s) hle

/-! ### Component lemmas for the full (rejection) path of `addAfterRead` -/

lemma addAfterRead_full_err (b : Bucket) (now : Int) (a : Nat)
    (incrR : IncrReply) (pexR : PexpireReply) (ttlR : TtlReply)
    (h : b.remaining < a) :
    (b.addAfterRead now a incrR pexR ttlR).err = some BError.full := by
  unfold Bucket.addAfterRead
  rw [if_pos (by omega)]

lemma addAfterRead_full_remaining (b : Bucket) (now : Int) (a : Nat)
    (incrR : IncrReply) (pexR : PexpireReply) (ttlR : TtlReply)
    (h : b.remaining < a) :
    (b.addAfterRead now a incrR pexR ttlR).bucket.remaining = b.remaining := by
  unfold Bucket.addAfterRead
  rw [if_pos (by omega)]
  simp [updateOldReset_remaining]

lemma addAfterRead_full_cmds (b : Bucket) (now : Int) (a : Nat)
    (incrR : IncrReply) (pexR : PexpireReply) (ttlR : TtlReply)
    (h : b.remaining < a) :
    ∀ c ∈ (b.addAfterRead now a incrR pexR ttlR).cmds,
      c.isMutating = false := by
  unfold Bucket.addAfterRead
  rw [if_pos (by omega)]
  intro c hc
  rcases updateOldReset_cmds b now ttlR with hcm | hcm <;>
    simp only [hcm] at hc
  · simp at hc
    subst hc
    rfl
  · simp at hc
    rcases hc with rfl | rfl <;> rfl

/-! ### Structural lemmas about `addAfterRead` and `Add` -/

lemma addAfterRead_state_eq (b : Bucket) (now : Int) (a : Nat)
    (incrR : IncrReply) (pexR : PexpireReply) (ttlR : TtlReply) :
    (b.addAfterRead now a incrR pexR ttlR).state
      = (b.addAfterRead now a incrR pexR ttlR).bucket.State := by
  unfold Bucket.addAfterRead
  split
  · rfl
  · cases incrR with
    | fail e => rfl
    | ok count =>
        dsimp only
        by_cases hc : count = a
        · rw [if_pos hc]
          cases pexR <;> rfl
        · rw [if_neg hc]

lemma addAfterRead_capacity (b : Bucket) (now : Int) (a : Nat)
    (incrR : IncrReply) (pexR : PexpireReply) (ttlR : TtlReply) :
    (b.addAfterRead now a incrR pexR ttlR).bucket.capacity = b.capacity := by
  unfold Bucket.addAfterRead
  split
  · simp [updateOldReset_capacity]
  · cases incrR with
    | fail e => rfl
    | ok count =>
        dsimp only
        by_cases hc : count = a
        · rw [if_pos hc]
          cases pexR with
          | fail e => rfl
          | ok => simp [updateOldReset_capacity]
        · rw [if_neg hc]
          simp [updateOldReset_capacity]

lemma addAfterRead_remaining_le (b : Bucket) (now : Int) (a : Nat)
    (incrR : IncrReply) (pexR : PexpireReply) (ttlR : TtlReply)
    (h : b.remaining ≤ b.capacity) :
    (b.addAfterRead now a incrR pexR ttlR).bucket.remaining ≤ b.capacity := by
  unfold Bucket.addAfterRead
  split
  · simpa [updateOldReset_remaining] using h
  · cases incrR with
    | fail e => simpa using h
    | ok count =>
        dsimp only
        by_cases hc : count = a
        · rw [if_pos hc]
          cases pexR with
          | fail e => simpa using h
          | ok => simp [Nat.sub_le]
        · rw [if_neg hc]
          simp [Nat.sub_le]

lemma addAfterRead_incr_amount (b : Bucket) (now : Int) (a : Nat)
    (incrR : IncrReply) (pexR : PexpireReply) (ttlR : TtlReply)
    (k : String) (a2 : Nat)
    (hm : Cmd.incrBy k a2 ∈ (b.addAfterRead now a incrR pexR ttlR).cmds) :
    a2 = a := by
  unfold Bucket.addAfterRead at hm
  rcases updateOldReset_cmds b now ttlR with hcm | hcm <;>
    simp only [hcm] at hm <;>
    cases incrR <;>
    cases pexR <;>
    split at hm <;>
    (try split at hm) <;>
    (try simp_all) <;>
    (try (split at hm <;> simp_all))

lemma Add_state_eq (b : Bucket) (now : Int) (amount : Nat) (getR : GetReply)
    (incrR : IncrReply) (pexR : PexpireReply) (ttlR : TtlReply) :
    (b.Add now amount getR incrR pexR ttlR).state
      = (b.Add now amount getR incrR pexR ttlR).bucket.State := by
  cases getR with
  | fail e => rfl
  | notFound => exact addAfterRead_state_eq _ _ _ _ _ _
  | found c => exact addAfterRead_state_eq _ _ _ _ _ _

lemma Add_capacity (b : Bucket) (now : Int) (amount : Nat) (getR : GetReply)
    (incrR : IncrReply) (pexR : PexpireReply) (ttlR : TtlReply) :
    (b.Add now amount getR incrR pexR ttlR).bucket.capacity = b.capacity := by
  cases getR with
  | fail e => rfl
  | notFound => exact addAfterRead_capacity _ _ _ _ _ _
  | found c => exact addAfterRead_capacity _ _ _ _ _ _

lemma Add_notFound (b : Bucket) (now : Int) (amount : Nat)
    (incrR : IncrReply) (pexR : PexpireReply) (ttlR : TtlReply) :
    b.Add now amount GetReply.notFound incrR pexR ttlR
      = Bucket.addAfterRead { b with remaining := b.capacity }
          now amount incrR pexR ttlR := rfl

lemma Add_found (b : Bucket) (now : Int) (amount c : Nat)
    (incrR : IncrReply) (pexR : PexpireReply) (ttlR : TtlReply) :
    b.Add now amount (GetReply.found c) incrR pexR ttlR
      = Bucket.addAfterRead
          { b with remaining := b.capacity - minUint c b.capacity }
          now amount incrR pexR ttlR := rfl

lemma addAfterRead_not_full (b : Bucket) (now : Int) (a : Nat)
    (incrR : IncrReply) (pexR : PexpireReply) (ttlR : TtlReply)
    (hincr : Cmd.incrBy b.name a
        ∈ (b.addAfterRead now a incrR pexR ttlR).cmds) :
    a ≤ b.remaining := by
  by_contra hf
  unfold Bucket.addAfterRead at hincr
  rw [if_pos (by omega)] at hincr
  rcases updateOldReset_cmds b now ttlR with hcm | hcm <;>
    simp only [hcm] at hincr <;> simp at hincr

lemma addAfterRead_pexpire (b : Bucket) (now : Int) (a count : Nat)
    (pexR : PexpireReply) (ttlR : TtlReply) (k : String) (ms : Int)
    (hincr : Cmd.incrBy b.name a
        ∈ (b.addAfterRead now a (IncrReply.ok count) pexR ttlR).cmds) :
    (Cmd.pexpire k ms
        ∈ (b.addAfterRead now a (IncrReply.ok count) pexR ttlR).cmds)
      ↔ (k = b.name ∧ count = a ∧ ms = Int.tdiv b.rate millisecond) := by
  have hf := addAfterRead_not_full b now a _ _ _ hincr
  unfold Bucket.addAfterRead
  rw [if_neg (by omega)]
  dsimp only
  by_cases hc : count = a
  · rw [if_pos hc]
    cases pexR with
    | fail e => simp [hc]
    | ok =>
        rcases updateOldReset_cmds b now ttlR with hcm | hcm <;>
          simp only [hcm] <;> simp [hc]
  · rw [if_neg hc]
    rcases updateOldReset_cmds b now ttlR with hcm | hcm <;>
      simp only [hcm] <;> simp [hc]

lemma addAfterRead_pexfail (b : Bucket) (now : Int) (a : Nat)
    (ttlR : TtlReply) (e : Nat) (h : a ≤ b.remaining) :
    (b.addAfterRead now a (IncrReply.ok a) (PexpireReply.fail e) ttlR)
      = { state := b.State, err := some (BError.store e), bucket := b,
          cmds := [Cmd.get b.name, Cmd.incrBy b.name a,
                   Cmd.pexpire b.name (Int.tdiv b.rate millisecond)] } := by
  unfold Bucket.addAfterRead
  rw [if_neg (by omega)]
  dsimp only
  rw [if_pos rfl]

lemma addAfterRead_err_ttl (b : Bucket) (now : Int) (a : Nat)
    (incrR : IncrReply) (pexR : PexpireReply) (t1 t2 : TtlReply) :
    (b.addAfterRead now a incrR pexR t1).err
      = (b.addAfterRead now a incrR pexR t2).err := by
  unfold Bucket.addAfterRead
  split
  · rfl
  · cases incrR with
    | fail e => rfl
    | ok count =>
        dsimp only
        by_cases hc : count = a
        · simp only [if_pos hc]
          cases pexR <;> rfl
        · simp only [if_neg hc]

lemma addAfterRead_remaining_ttl (b : Bucket) (now : Int) (a : Nat)
    (incrR : IncrReply) (pexR : PexpireReply) (t1 t2 : TtlReply) :
    (b.addAfterRead now a incrR pexR t1).bucket.remaining
      = (b.addAfterRead now a incrR pexR t2).bucket.remaining := by
  unfold Bucket.addAfterRead
  split
  · simp [updateOldReset_remaining]
  · cases incrR with
    | fail e => rfl
    | ok count =>
        dsimp only
        by_cases hc : count = a
        · simp only [if_pos hc]
          cases pexR <;> simp
        · simp only [if_neg hc]

lemma addAfterRead_reset_fail (b : Bucket) (now : Int) (a : Nat)
    (incrR : IncrReply) (pexR : PexpireReply) (e : Nat) :
    (b.addAfterRead now a incrR pexR (TtlReply.fail e)).bucket.reset
      = b.reset := by
  unfold Bucket.addAfterRead
  split
  · simp [updateOldReset_fail]
  · cases incrR with
    | fail e2 => rfl
    | ok count =>
        dsimp only
        by_cases hc : count = a
        · rw [if_pos hc]
          cases pexR with
          | fail e2 => rfl
          | ok => simp [updateOldReset_fail]
        · rw [if_neg hc]
          simp [updateOldReset_fail]

lemma Add_remaining_le (b : Bucket) (now : Int) (amount : Nat)
    (getR : GetReply) (incrR : IncrReply) (pexR : PexpireReply)
    (ttlR : TtlReply) (h : b.remaining ≤ b.capacity) :
    (b.Add now amount getR incrR pexR ttlR).bucket.remaining ≤ b.capacity := by
  cases getR with
  | fail e => simpa using h
  | notFound => exact addAfterRead_remaining_le _ _ _ _ _ _ (by simp)
  | found c => exact addAfterRead_remaining_le _ _ _ _ _ _ (by simp [Nat.sub_le])

lemma Add_incr_amount (b : Bucket) (now : Int) (amount : Nat)
    (getR : GetReply) (incrR : IncrReply) (pexR : PexpireReply)
    (ttlR : TtlReply) (k : String) (a2 : Nat)
    (hm : Cmd.incrBy k a2 ∈ (b.Add now amount getR incrR pexR ttlR).cmds) :
    a2 = amount := by
  cases getR with
  | fail e => simp [Bucket.Add] at hm
  | notFound => exact addAfterRead_incr_amount _ _ _ _ _ _ _ _ hm
  | found c => exact addAfterRead_incr_amount _ _ _ _ _ _ _ _ hm

lemma Create_remaining_le (name : String) (cap : Nat) (rate now : Int)
    (getR : GetReply) (ttlR : TtlReply) (bb : Bucket)
    (hb : (Create name cap rate now getR ttlR).bucket = some bb) :
    bb.remaining ≤ bb.capacity := by
  cases getR with
  | fail e => simp [Create] at hb
  | notFound =>
      simp only [Create] at hb
      obtain rfl := Option.some.inj hb
      simp
  | found c =>
      cases ttlR with
      | fail e => simp [Create] at hb
      | ok t =>
          simp only [Create] at hb
          obtain rfl := Option.some.inj hb
          simp [Nat.sub_le]

/-- Invariant of the honest run: starting from any bucket whose cached
`remaining` matches the counter, a sequence of amounts fitting in the
capacity succeeds throughout and leaves `remaining` at
`capacity - total`. -/
lemma runAdds_spec (amounts : List Nat) :
    ∀ (b : Bucket) (counter : Option Nat) (now : Int) (ttlR : TtlReply),
      b.remaining = b.capacity - counter.getD 0 →
      counter.getD 0 + amounts.sum ≤ b.capacity →
      (∀ e ∈ (runAdds b counter now ttlR amounts).errs, e = none) ∧
      (runAdds b counter now ttlR amounts).bucket.capacity = b.capacity ∧
      (runAdds b counter now ttlR amounts).counter.getD 0
          = counter.getD 0 + amounts.sum ∧
      (runAdds b counter now ttlR amounts).bucket.remaining
          = b.capacity - (counter.getD 0 + amounts.sum) := by
  induction amounts with
  | nil =>
      intro b counter now ttlR hrem hs
      refine ⟨by simp [runAdds], by simp [runAdds], by simp [runAdds], ?_⟩
      simp [runAdds, hrem]
  | cons a rest ih =>
      intro b counter now ttlR hrem hs
      have hsum : counter.getD 0 + (a + rest.sum) ≤ b.capacity := by
        simpa using hs
      have hsa : counter.getD 0 + a ≤ b.capacity := by omega
      obtain ⟨he, hcap, hrm, hcnt⟩ := honestAdd_spec b counter now ttlR a hsa
      have hrem1 : (honestAdd b counter now ttlR a).1.bucket.remaining
          = (honestAdd b counter now ttlR a).1.bucket.capacity
            - ((honestAdd b counter now ttlR a).2).getD 0 := by
        rw [hcap, hrm, hcnt]
        simp
      have hs1 : ((honestAdd b counter now ttlR a).2).getD 0 + rest.sum
          ≤ (honestAdd b counter now ttlR a).1.bucket.capacity := by
        rw [hcap, hcnt]
        simp
        omega
      obtain ⟨ihe, ihcap, ihcnt, ihrem⟩ :=
        ih (honestAdd b counter now ttlR a).1.bucket
          (honestAdd b counter now ttlR a).2 now ttlR hrem1 hs1
      simp only [runAdds]
      refine ⟨?_, ?_, ?_, ?_⟩
      · intro e hmem
        rcases List.mem_cons.mp hmem with h | h
        · rw [h]
          exact he
        · exact ihe e h
      · rw [ihcap, hcap]
      · rw [ihcnt, hcnt]
        simp
        omega
      · rw [ihrem, hcap, hcnt]
        simp
        omega

/-- C1: for every sequence of `Add` calls on a bucket created fresh (the
store key is absent at `Create` time) whose amounts sum to at most the
capacity within one window (honest store, key never expiring during the
run), every `Add` succeeds and the final cached `remaining` equals
`capacity - sum(amounts)`. -/
theorem C1_fresh_sequence (name : String) (capacity : Nat) (rate now : Int)
    (ttlR : TtlReply) (amounts : List Nat) (b0 : Bucket)
    (hb : (Create name capacity rate now GetReply.notFound ttlR).bucket
            = some b0)
    (hsum : amounts.sum ≤ capacity) :
    (∀ e ∈ (runAdds b0 none now ttlR amounts).errs, e = none) ∧
    (runAdds b0 none now ttlR amounts).bucket.remaining
        = capacity - amounts.sum := by
  simp only [Create] at hb
  obtain rfl := (Option.some.inj hb).symm
  obtain ⟨he, hcap, hcnt, hrem⟩ :=
    runAdds_spec amounts
      { name := name, capacity := capacity, remaining := capacity,
        reset := now + rate, rate := rate } none now ttlR
      (by simp) (by simpa using hsum)
  exact ⟨he, by simpa using hrem⟩

/-- Witness for C1: capacity 10, amounts 4 then 6 on a fresh bucket. -/
theorem C1_fresh_sequence_witness :
    (∀ e ∈ (runAdds (Bucket.mk "k" 10 10 2000000000 1000000000) none
        1000000000 (TtlReply.ok 500) [4, 6]).errs, e = none) ∧
    (runAdds (Bucket.mk "k" 10 10 2000000000 1000000000) none 1000000000
        (TtlReply.ok 500) [4, 6]).bucket.remaining = 10 - [4, 6].sum :=
  C1_fresh_sequence "k" 10 1000000000 1000000000 (TtlReply.ok 500) [4, 6]
    (Bucket.mk "k" 10 10 2000000000 1000000000) (by decide) (by decide)

/-- C2: when `amount` exceeds the remaining quota computed from the store
counter (`capacity - min(count, capacity)`, or `capacity` when the key is
absent), `Add` returns `ErrorFull`, the cached `remaining` is exactly the
quota computed from that counter (nothing is consumed), and no mutating
store command (no increment, no expiry change) is issued. -/
theorem C2_full_no_mutation (b : Bucket) (now : Int) (amount count : Nat)
    (incrR : IncrReply) (pexR : PexpireReply) (ttlR : TtlReply)
    (h : b.capacity - minUint count b.capacity < amount) :
    (b.Add now amount (GetReply.found count) incrR pexR ttlR).err
        = some BError.full ∧
    (b.Add now amount (GetReply.found count) incrR pexR ttlR).bucket.remaining
        = b.capacity - minUint count b.capacity ∧
    (∀ c ∈ (b.Add now amount (GetReply.found count) incrR pexR ttlR).cmds,
      c.isMutating = false) ∧
    (b.capacity < amount →
      (b.Add now amount GetReply.notFound incrR pexR ttlR).err
          = some BError.full ∧
      (b.Add now amount GetReply.notFound incrR pexR ttlR).bucket.remaining
          = b.capacity ∧
      ∀ c ∈ (b.Add now amount GetReply.notFound incrR pexR ttlR).cmds,
        c.isMutating = false) := by
  rw [Add_found, Add_notFound]
  refine ⟨addAfterRead_full_err _ _ _ _ _ _ (by simpa using h),
          addAfterRead_full_remaining _ _ _ _ _ _ (by simpa using h),
          addAfterRead_full_cmds _ _ _ _ _ _ (by simpa using h),
          fun h2 => ⟨addAfterRead_full_err _ _ _ _ _ _ (by simpa using h2),
                     addAfterRead_full_remaining _ _ _ _ _ _ (by simpa using h2),
                     addAfterRead_full_cmds _ _ _ _ _ _ (by simpa using h2)⟩⟩

/-- Witness for C2: capacity 10, counter 4 (quota 6), amount 7. -/
theorem C2_full_no_mutation_witness :
    ((Bucket.mk "k" 10 10 2000000000 1000000000).Add 1000000000 7
        (GetReply.found 4) (IncrReply.ok 11) PexpireReply.ok
        (TtlReply.ok 500)).err = some BError.full :=
  (C2_full_no_mutation (Bucket.mk "k" 10 10 2000000000 1000000000) 1000000000
    7 4 (IncrReply.ok 11) PexpireReply.ok (TtlReply.ok 500) (by decide)).1

/-- C3: after every `Create` and every `Add` -- whatever the store replies,
including counter values exceeding the capacity -- the cached `remaining`
(a `Nat`, hence nonnegative, just as the Go `uint`) is at most `capacity`,
both in the bucket and in the returned snapshot; and the store counter is
never clamped: any increment issued carries the raw requested amount. -/
theorem C3_remaining_invariant (b : Bucket) (now : Int) (amount : Nat)
    (getR : GetReply) (incrR : IncrReply) (pexR : PexpireReply)
    (ttlR : TtlReply) (name2 : String) (cap2 : Nat) (rate2 now2 : Int)
    (getR2 : GetReply) (ttlR2 : TtlReply)
    (h : b.remaining ≤ b.capacity) :
    (b.Add now amount getR incrR pexR ttlR).bucket.remaining
        ≤ (b.Add now amount getR incrR pexR ttlR).bucket.capacity ∧
    (b.Add now amount getR incrR pexR ttlR).state.remaining
        ≤ (b.Add now amount getR incrR pexR ttlR).state.capacity ∧
    (∀ k a2, Cmd.incrBy k a2 ∈ (b.Add now amount getR incrR pexR ttlR).cmds
        → a2 = amount) ∧
    (∀ bb, (Create name2 cap2 rate2 now2 getR2 ttlR2).bucket = some bb →
        bb.remaining ≤ bb.capacity) := by
  have h1 := Add_remaining_le b now amount getR incrR pexR ttlR h
  have h2 := Add_capacity b now amount getR incrR pexR ttlR
  refine ⟨by rw [h2]; exact h1, ?_, ?_, ?_⟩
  · rw [Add_state_eq]
    simp only [Bucket.State, Bucket.Remaining, Bucket.Capacity]
    rw [h2]
    exact h1
  · exact fun k a2 hm => Add_incr_amount b now amount getR incrR pexR ttlR k a2 hm
  · exact fun bb hb => Create_remaining_le name2 cap2 rate2 now2 getR2 ttlR2 bb hb

/-- Witness for C3: counter 25 far above capacity 10 still yields a
clipped remaining. -/
theorem C3_remaining_invariant_witness :
    ((Bucket.mk "k" 10 10 2000000000 1000000000).Add 1000000000 3
        (GetReply.found 25) (IncrReply.ok 28) PexpireReply.ok
        (TtlReply.ok 500)).bucket.remaining
      ≤ ((Bucket.mk "k" 10 10 2000000000 1000000000).Add 1000000000 3
        (GetReply.found 25) (IncrReply.ok 28) PexpireReply.ok
        (TtlReply.ok 500)).bucket.capacity :=
  (C3_remaining_invariant (Bucket.mk "k" 10 10 2000000000 1000000000)
    1000000000 3 (GetReply.found 25) (IncrReply.ok 28) PexpireReply.ok
    (TtlReply.ok 500) "j" 5 1 1 GetReply.notFound (TtlReply.ok 1)
    (by decide)).1

/-- C4: `Create` on an absent key returns a bucket with
`remaining = capacity` and `reset = now + windowDuration`, no error, and
issues no mutating store command. -/
theorem C4_create_fresh (name : String) (capacity : Nat) (rate now : Int)
    (ttlR : TtlReply) :
    (Create name capacity rate now GetReply.notFound ttlR).bucket
        = some { name := name, capacity := capacity, remaining := capacity,
                 reset := now + rate, rate := rate } ∧
    (Create name capacity rate now GetReply.notFound ttlR).err = none ∧
    ∀ c ∈ (Create name capacity rate now GetReply.notFound ttlR).cmds,
      c.isMutating = false := by
  refine ⟨rfl, rfl, ?_⟩
  intro c hc
  simp [Create] at hc
  rw [hc]
  rfl

/-- Witness for C4: a fresh 10-unit, 1 s bucket created at t = 1 s. -/
theorem C4_create_fresh_witness :
    (Create "k" 10 1000000000 1000000000 GetReply.notFound
        (TtlReply.ok 500)).bucket
      = some (Bucket.mk "k" 10 10 2000000000 1000000000) :=
  (C4_create_fresh "k" 10 1000000000 1000000000 (TtlReply.ok 500)).1

/-- C5: `Create` on a present key with counter `count` and time-to-live
`ttl` returns a bucket with `remaining = capacity - min(capacity, count)`
and `reset = now + ttl·millisecond`; and a store failure of either the
counter lookup or the ttl lookup is returned as the error with no
bucket. -/
theorem C5_create_existing (name : String) (capacity count : Nat)
    (rate now ttl : Int) (e : Nat) (ttlR : TtlReply) :
    (Create name capacity rate now (GetReply.found count) (TtlReply.ok ttl))
        = { bucket := some (Bucket.mk name capacity
                (capacity - minUint capacity count)
                (now + ttl * millisecond) rate),
            err := none, cmds := [Cmd.get name, Cmd.pttl name] } ∧
    (Create name capacity rate now (GetReply.fail e) ttlR)
        = { bucket := none, err := some e, cmds := [Cmd.get name] } ∧
    (Create name capacity rate now (GetReply.found count) (TtlReply.fail e))
        = { bucket := none, err := some e,
            cmds := [Cmd.get name, Cmd.pttl name] } :=
  ⟨rfl, rfl, rfl⟩

/-- C6: for an `Add` that reaches the increment (its `INCRBY` command is
issued) and whose post-increment total is `count`, a `PEXPIRE` on the
bucket's key is issued exactly when `count = amount`, and the expiry it
carries is the configured window duration `rate` (in milliseconds, as the
source computes `rate.Nanoseconds() / millisecond`); when
`count ≠ amount`, no expiry command is issued at all. -/
theorem C6_expiry_on_first (b : Bucket) (now : Int) (amount count : Nat)
    (getR : GetReply) (pexR : PexpireReply) (ttlR : TtlReply) (k : String)
    (ms : Int)
    (hincr : Cmd.incrBy b.name amount
        ∈ (b.Add now amount getR (IncrReply.ok count) pexR ttlR).cmds) :
    (Cmd.pexpire k ms
        ∈ (b.Add now amount getR (IncrReply.ok count) pexR ttlR).cmds)
      ↔ (k = b.name ∧ count = amount ∧ ms = Int.tdiv b.rate millisecond) := by
  cases getR with
  | fail e => simp [Bucket.Add] at hincr
  | notFound => exact addAfterRead_pexpire _ _ _ _ _ _ _ _ hincr
  | found c => exact addAfterRead_pexpire _ _ _ _ _ _ _ _ hincr

/-- Witness for C6: a first consumption (total 4 = amount 4) issues a
`PEXPIRE` of 1000 ms for a 1 s window. -/
theorem C6_expiry_on_first_witness :
    Cmd.pexpire "k" 1000
      ∈ ((Bucket.mk "k" 10 10 2000000000 1000000000).Add 1000000000 4
          (GetReply.found 0) (IncrReply.ok 4) PexpireReply.ok
          (TtlReply.ok 500)).cmds :=
  (C6_expiry_on_first (Bucket.mk "k" 10 10 2000000000 1000000000) 1000000000
      4 4 (GetReply.found 0) PexpireReply.ok (TtlReply.ok 500) "k" 1000
      (by decide)).mpr (by decide)

/-- C8: a store failure during the lazy reset refresh is swallowed: the
refresh itself leaves the bucket untouched, and the surrounding `Add`
returns the same error and the same remaining as it would with a
successful refresh, with `reset` keeping its previous value. -/
theorem C8_refresh_swallowed (b : Bucket) (now : Int) (amount : Nat)
    (getR : GetReply) (incrR : IncrReply) (pexR : PexpireReply)
    (e : Nat) (t : Int) :
    (updateOldReset b now (TtlReply.fail e)).bucket = b ∧
    (b.Add now amount getR incrR pexR (TtlReply.fail e)).err
        = (b.Add now amount getR incrR pexR (TtlReply.ok t)).err ∧
    (b.Add now amount getR incrR pexR (TtlReply.fail e)).bucket.remaining
        = (b.Add now amount getR incrR pexR (TtlReply.ok t)).bucket.remaining ∧
    (b.Add now amount getR incrR pexR (TtlReply.fail e)).bucket.reset
        = b.reset ∧
    (b.Add now amount getR incrR pexR (TtlReply.fail e)).state.remaining
        = (b.Add now amount getR incrR pexR (TtlReply.ok t)).state.remaining := by
  refine ⟨updateOldReset_fail b now e, ?_, ?_, ?_, ?_⟩
  · cases getR with
    | fail e2 => rfl
    | notFound => exact addAfterRead_err_ttl _ _ _ _ _ _ _
    | found c => exact addAfterRead_err_ttl _ _ _ _ _ _ _
  · cases getR with
    | fail e2 => rfl
    | notFound => exact addAfterRead_remaining_ttl _ _ _ _ _ _ _
    | found c => exact addAfterRead_remaining_ttl _ _ _ _ _ _ _
  · cases getR with
    | fail e2 => rfl
    | notFound => exact addAfterRead_reset_fail _ _ _ _ _ _
    | found c => exact addAfterRead_reset_fail _ _ _ _ _ _
  · rw [Add_state_eq, Add_state_eq]
    simp only [Bucket.State, Bucket.Remaining, Bucket.Capacity]
    cases getR with
    | fail e2 => rfl
    | notFound => exact addAfterRead_remaining_ttl _ _ _ _ _ _ _
    | found c => exact addAfterRead_remaining_ttl _ _ _ _ _ _ _

/-- C9: when the increment succeeds (the `INCRBY` is issued) with a
post-increment total equal to `amount` and the subsequent `PEXPIRE`
fails, `Add` returns that store error, and the snapshot's remaining is
still the value computed from the pre-increment counter read; the
increment has nevertheless committed at the store (its command was
issued). -/
theorem C9_pexpire_failure (b : Bucket) (now : Int) (amount : Nat)
    (getR : GetReply) (ttlR : TtlReply) (e : Nat)
    (hincr : Cmd.incrBy b.name amount
        ∈ (b.Add now amount getR (IncrReply.ok amount) (PexpireReply.fail e)
            ttlR).cmds) :
    (b.Add now amount getR (IncrReply.ok amount) (PexpireReply.fail e)
        ttlR).err = some (BError.store e) ∧
    (∀ c, getR = GetReply.found c →
      (b.Add now amount getR (IncrReply.ok amount) (PexpireReply.fail e)
          ttlR).state.remaining = b.capacity - minUint c b.capacity) ∧
    (getR = GetReply.notFound →
      (b.Add now amount getR (IncrReply.ok amount) (PexpireReply.fail e)
          ttlR).state.remaining = b.capacity) ∧
    (b.Add now amount getR (IncrReply.ok amount) (PexpireReply.fail e)
        ttlR).bucket.reset = b.reset := by
  cases getR with
  | fail e2 => simp [Bucket.Add] at hincr
  | notFound =>
      rw [Add_notFound] at hincr ⊢
      have hle := addAfterRead_not_full _ _ _ _ _ _ hincr
      rw [addAfterRead_pexfail _ now amount ttlR e hle]
      refine ⟨rfl, ?_, fun _ => rfl, rfl⟩
      intro c hc
      cases hc
  | found c =>
      rw [Add_found] at hincr ⊢
      have hle := addAfterRead_not_full _ _ _ _ _ _ hincr
      rw [addAfterRead_pexfail _ now amount ttlR e hle]
      refine ⟨rfl, ?_, ?_, rfl⟩
      · intro c2 hc2
        cases hc2
        rfl
      · intro hc
        cases hc

/-- Witness for C9: increment committed, `PEXPIRE` fails with error 7;
the snapshot still shows the pre-increment remaining 10. -/
theorem C9_pexpire_failure_witness :
    ((Bucket.mk "k" 10 10 2000000000 1000000000).Add 1000000000 4
        (GetReply.found 0) (IncrReply.ok 4) (PexpireReply.fail 7)
        (TtlReply.ok 500)).err = some (BError.store 7) :=
  (C9_pexpire_failure (Bucket.mk "k" 10 10 2000000000 1000000000) 1000000000
    4 (GetReply.found 0) (TtlReply.ok 500) 7 (by decide)).1

/-- Counterexample to C7 as stated: with cached `reset` at 1.5 s and `now`
at 1.0 s the cached reset is strictly in the future, yet the refresh
issues a `PTTL` store call and overwrites `reset` -- the staleness test of
the source compares whole Unix seconds (`reset.Unix() > now.Unix()`), not
full-precision timestamps. -/
theorem C7_subsecond_refresh :
    (1000000000 : Int) < 1500000000 ∧
    (updateOldReset (Bucket.mk "k" 10 10 1500000000 1000000000) 1000000000
        (TtlReply.ok 700)).cmds ≠ [] ∧
    (updateOldReset (Bucket.mk "k" 10 10 1500000000 1000000000) 1000000000
        (TtlReply.ok 700)).bucket.reset ≠ 1500000000 := by
  refine ⟨by norm_num, ?_, ?_⟩ <;> decide

/-- C7 amended: the staleness test works at whole-second granularity --
the refresh queries the store's time-to-live only when the cached reset's
Unix second is at most now's Unix second; whenever the reset's Unix second
is strictly ahead of now's, the refresh leaves the bucket (and its
`reset`) untouched and performs no store call. -/
theorem C7_stale_refresh (b : Bucket) (now : Int) (ttlR : TtlReply)
    (h : unixSec now < unixSec b.reset) :
    updateOldReset b now ttlR = { bucket := b, err := none, cmds := [] } := by
  unfold updateOldReset
  rw [if_pos h]

/-- Witness for the amended C7: reset at 5 s, now at 1 s, no store call. -/
theorem C7_stale_refresh_witness :
    updateOldReset (Bucket.mk "k" 10 10 5000000000 1000000000) 1000000000
        (TtlReply.ok 700)
      = { bucket := Bucket.mk "k" 10 10 5000000000 1000000000, err := none,
          cmds := [] } :=
  C7_stale_refresh (Bucket.mk "k" 10 10 5000000000 1000000000) 1000000000
    (TtlReply.ok 700) (by decide)

/-- C10: a non-positive `PTTL` reply (covering redis's sentinels `-1`
"no expiry" and `-2` "no such key") is not treated specially: both a stale
reset refresh and `Create` on an existing key set
`reset = now + ttl·millisecond` unconditionally, which for a negative
`ttl` is a timestamp strictly in the past. -/
theorem C10_negative_ttl (b : Bucket) (now ttl : Int) (name : String)
    (cap c : Nat) (rate : Int)
    (h1 : unixSec b.reset ≤ unixSec now) (h2 : ttl < 0) :
    ((updateOldReset b now (TtlReply.ok ttl)).bucket.reset
        = now + ttl * millisecond ∧
      (updateOldReset b now (TtlReply.ok ttl)).bucket.reset < now) ∧
    ∀ bb, (Create name cap rate now (GetReply.found c)
        (TtlReply.ok ttl)).bucket = some bb →
      bb.reset = now + ttl * millisecond ∧ bb.reset < now := by
  have hm : ttl * millisecond < 0 :=
    mul_neg_of_neg_of_pos h2 (by norm_num [millisecond])
  constructor
  · unfold updateOldReset
    rw [if_neg (by omega)]
    refine ⟨rfl, ?_⟩
    show now + ttl * millisecond < now
    omega
  · intro bb hb
    simp only [Create] at hb
    obtain rfl := Option.some.inj hb
    refine ⟨rfl, ?_⟩
    show now + ttl * millisecond < now
    omega

/-- Witness for C10 at the sentinel `ttl = -2`. -/
theorem C10_negative_ttl_witness :
    (updateOldReset (Bucket.mk "k" 10 10 1000000000 1000000000) 1500000000
        (TtlReply.ok (-2))).bucket.reset = 1500000000 + (-2) * millisecond :=
  ((C10_negative_ttl (Bucket.mk "k" 10 10 1000000000 1000000000) 1500000000
      (-2) "j" 5 3 1000000000 (by decide) (by decide)).1).1

end Redis
